import Mathlib

/-
  Verification of the round-based market-simulation game (invest).

  The definitions below are shallow embeddings of the JavaScript source:
    - RoundManager.jsx      : round countdown timer and auto-advance scheduling
    - TradingInterface.jsx  : trading gate, order entry, max-quantity helpers
    - GameEditor.jsx        : game creation, round-price matrix persistence
    - GameDetails.jsx       : tab gating
    - lib/supabase          : getRoundPrices filtering
  JavaScript numbers are modelled as rationals (money, prices) or integers
  (timestamps in milliseconds, quantities); a JavaScript value that can be
  NaN or undefined is modelled as an Option.  Server-side Supabase RPCs whose
  SQL is not part of the repository are modelled from the spec and say so in
  their doc comments.
-/

namespace Invest

/-- Round lifecycle status (data model section 3). -/
inductive RoundStatus
  | pending
  | active
  | completed
deriving DecidableEq, Repr

/-- Game lifecycle status (data model section 3). -/
inductive GameStatus
  | draft
  | live
  | completed
  | archived
deriving DecidableEq, Repr

/-- A row of the game_rounds table, as consumed by RoundManager.jsx.
`actual_start_time` is milliseconds since the epoch; `none` models a missing
or unparsable timestamp (the `!currentRound.actual_start_time` and
`!Number.isFinite(startTime)` guards).  `duration_minutes` is an integer and
may be nonpositive in malformed data, exactly as the code guards against. -/
structure Round where
  round_number : Nat
  status : RoundStatus
  duration_minutes : Int
  actual_start_time : Option Int
deriving DecidableEq, Repr

/-- RoundManager.jsx `calculateTimeRemaining`: remaining seconds of the
current round, computed from the stored start time and duration against the
wall clock `now` (milliseconds).  Returns 0 when the start time is missing
or the duration is not positive; otherwise `floor(max(0, end - now)/1000)`. -/
def calculateTimeRemaining (r : Round) (now : Int) : Int :=
  match r.actual_start_time with
  | none => 0
  | some startTime =>
    let durationMs := r.duration_minutes * 60 * 1000
    if durationMs ≤ 0 then 0
    else
      let endTime := startTime + durationMs
      let remaining := max 0 (endTime - now)
      remaining / 1000

/-- RoundManager.jsx `triggerAutoAdvance`: given whether this client is an
admin and whether an auto-advance timeout is already pending
(`autoAdvanceTimeoutRef.current`), returns the new pending flag together
with the list of delays (ms) of `advanceToNextRound` calls scheduled by
this invocation.  Non-admin clients return immediately; a pending timeout
suppresses any second scheduling; otherwise exactly one call is scheduled
with a 3000 ms delay. -/
def triggerAutoAdvance (isAdmin : Bool) (pending : Bool) : Bool × List Int :=
  if !isAdmin then (pending, [])
  else if pending then (pending, [])
  else (true, [3000])

/-- One execution of the countdown path in RoundManager.jsx (both the
initial computation in the timer effect and each 1-second interval tick):
`triggerAutoAdvance` runs exactly when the computed remaining time is
not positive. -/
def timerTick (r : Round) (now : Int) (isAdmin : Bool) (pending : Bool) :
    Bool × List Int :=
  if calculateTimeRemaining r now ≤ 0 then triggerAutoAdvance isAdmin pending
  else (pending, [])

/-- The timer effect of RoundManager.jsx on (re)initialisation, e.g. after a
client restart: both refs start as null, so no timeout is pending, and the
overdue check runs against the freshly computed remaining time. -/
def initTimerEffect (r : Round) (now : Int) (isAdmin : Bool) : Bool × List Int :=
  timerTick r now isAdmin false

/-- Order outcome as recorded on the orders ledger. -/
inductive OrderOutcome
  | filled
  | rejected (reason : String)
deriving DecidableEq, Repr

/-- A positions row: the signed holding of a player in one symbol.
Declared early because several components consume it. -/
structure Position where
  symbol : String
  quantity : Int
  average_price : ℚ
deriving DecidableEq, Repr

/-- Result of a sell order: the player cash, positions and the order
outcome after the call. -/
structure SellResult where
  cash : ℚ
  positions : List Position
  outcome : OrderOutcome
deriving DecidableEq, Repr

/-- TradingInterface.jsx `getPosition`. -/
def getPosition (positions : List Position) (symbol : String) :
    Option Position :=
  positions.find? (fun p => p.symbol == symbol)

/-- Modelled from the spec: the sell path of the `place_order_v2` Supabase
RPC, whose SQL is not part of the repository (the client invokes it through
`gameApi.placeOrder`).  Spec section 4.2: if short selling is not allowed,
the existing long quantity must be at least the requested sell quantity,
else the order is rejected with `InsufficientPosition` and neither cash nor
position changes; on success cash grows by price times quantity and the
position quantity shrinks by the quantity. -/
def placeSellOrder (allow_short : Bool) (cash : ℚ) (positions : List Position)
    (symbol : String) (price : ℚ) (quantity : Int) : SellResult :=
  let held := ((getPosition positions symbol).map (fun p => p.quantity)).getD 0
  if allow_short = false ∧ held < quantity then
    { cash := cash, positions := positions,
      outcome := .rejected "InsufficientPosition" }
  else
    { cash := cash + price * (quantity : ℚ),
      positions := positions.map (fun p =>
        if p.symbol == symbol then { p with quantity := p.quantity - quantity }
        else p),
      outcome := .filled }

/-- Order side as used by TradingInterface.jsx (`orderType`). -/
inductive OrderSide
  | buy
  | sell
deriving DecidableEq, Repr

/-- Numeric value of a list of decimal digit characters. -/
def digitsVal (ds : List Char) : Nat :=
  ds.foldl (fun a c => a * 10 + (c.toNat - 48)) 0

/-- JavaScript `parseInt` on decimal input: an optional sign followed by the
longest prefix of digits; `none` models NaN (no leading digit). A
fractional entry such as "3.9" parses to 3. -/
def jsParseInt (s : String) : Option Int :=
  match s.data with
  | [] => none
  | '-' :: rest =>
    let ds := rest.takeWhile (fun c => c.isDigit)
    if ds.isEmpty then none else some (-(digitsVal ds : Int))
  | '+' :: rest =>
    let ds := rest.takeWhile (fun c => c.isDigit)
    if ds.isEmpty then none else some ((digitsVal ds : Int))
  | cs =>
    let ds := cs.takeWhile (fun c => c.isDigit)
    if ds.isEmpty then none else some ((digitsVal ds : Int))

/-- JavaScript `parseInt(q) <= 0`: comparisons with NaN are false. -/
def jsLeZero : Option Int → Bool
  | none => false
  | some n => n ≤ 0

/-- A game_stocks row (lib/supabase `getStocks`). -/
structure GameStock where
  symbol : String
  company_name : String
  initial_price : ℚ
deriving DecidableEq, Repr

/-- A stock as held in the `stocks` state of TradingInterface.jsx after
`loadStocks`: the raw game stock merged with a `current_price`; `none`
models the undefined field when no round is current. -/
structure StockView where
  symbol : String
  company_name : String
  initial_price : ℚ
  current_price : Option ℚ
deriving DecidableEq, Repr

/-- A round_prices row: the RoundPrice triple (round_number, symbol, price)
within one game. -/
structure RoundPriceRec where
  round_number : Nat
  symbol : String
  price : ℚ
deriving DecidableEq, Repr

/-- lib/supabase `getRoundPrices`: the round_prices rows of the game
filtered to one round number. -/
def getRoundPrices (allPrices : List RoundPriceRec) (roundNumber : Nat) :
    List RoundPriceRec :=
  allPrices.filter (fun p => p.round_number == roundNumber)

/-- TradingInterface.jsx `loadStocks`: when the game has a current round,
fetch that round's prices and merge them onto the stocks; the JavaScript
`priceData?.price || stock.initial_price` falls back to the initial price
when the row is missing or its price is 0.  When `current_round_number`
is 0 the stocks are stored without a current price. -/
def loadStocks (stocks : List GameStock) (current_round_number : Nat)
    (allPrices : List RoundPriceRec) : List StockView :=
  if current_round_number ≠ 0 then
    let prices := getRoundPrices allPrices current_round_number
    stocks.map (fun stock =>
      let priceData := prices.find? (fun p => p.symbol == stock.symbol)
      { symbol := stock.symbol, company_name := stock.company_name,
        initial_price := stock.initial_price,
        current_price := some (match priceData with
          | some pd => if pd.price = 0 then stock.initial_price else pd.price
          | none => stock.initial_price) })
  else
    stocks.map (fun stock =>
      { symbol := stock.symbol, company_name := stock.company_name,
        initial_price := stock.initial_price, current_price := none })

/-- TradingInterface.jsx order summary: the per-share price shown for the
prepared order is the `current_price` of the selected stock. -/
def orderSummaryPrice (s : StockView) : Option ℚ := s.current_price

/-- TradingInterface.jsx `canTrade`: `currentRound?.status === 'active'`. -/
def canTrade (currentRound : Option Round) : Bool :=
  match currentRound with
  | some r => r.status == .active
  | none => false

/-- The BUY/SELL toggle buttons carry `disabled={!canTrade}`. -/
def buySellToggleDisabled (currentRound : Option Round) : Bool :=
  !canTrade currentRound

/-- The quantity input carries `disabled={!canTrade}`. -/
def quantityInputDisabled (currentRound : Option Round) : Bool :=
  !canTrade currentRound

/-- The submit button:
`disabled={!canTrade || submitting || !quantity || parseInt(quantity) <= 0}`
(an empty string is the only falsy string). -/
def submitButtonDisabled (currentRound : Option Round) (submitting : Bool)
    (quantity : String) : Bool :=
  !canTrade currentRound || submitting || quantity == "" ||
    jsLeZero (jsParseInt quantity)

/-- TradingInterface.jsx `handlePlaceOrder`: guarded by
`!selectedStock || !quantity || parseInt(quantity) <= 0`; when the guard
passes, `placeOrder` is invoked with the selected symbol, the order type
and `parseInt(quantity)` (the last modelled as `Option Int`, `none` for
NaN).  The result is the `placeOrder` invocation, or `none` when blocked. -/
def handlePlaceOrder (selectedStock : Option StockView) (orderType : OrderSide)
    (quantity : String) : Option (String × OrderSide × Option Int) :=
  match selectedStock with
  | none => none
  | some stock =>
    if quantity == "" then none
    else if jsLeZero (jsParseInt quantity) then none
    else some (stock.symbol, orderType, jsParseInt quantity)

/-- The full click path for submitting an order: the button must be enabled
and then `handlePlaceOrder` runs. -/
def submitOrder (currentRound : Option Round) (submitting : Bool)
    (selectedStock : Option StockView) (orderType : OrderSide)
    (quantity : String) : Option (String × OrderSide × Option Int) :=
  if submitButtonDisabled currentRound submitting quantity then none
  else handlePlaceOrder selectedStock orderType quantity

/-- GameDetails.jsx tab gating: the Trading tab is rendered only for
non-admin viewers of a game whose status is live
(`!isAdmin && game?.status === 'live'`). -/
def tradingTabOffered (isAdmin : Bool) (gameStatus : GameStatus) : Bool :=
  !isAdmin && gameStatus == .live

/-- A player_game_state row as used by TradingInterface.jsx. -/
structure PlayerState where
  cash : ℚ
  equity_value : ℚ
  total_value : ℚ
deriving DecidableEq, Repr

/-- TradingInterface.jsx `calculateMaxQuantity`: 0 without a stock or player
state; for a buy, `Math.floor(cash / current_price)` (the NaN result of a
missing current price is modelled as 0 and not used by any claim); for a
sell, `position?.quantity || 0`, i.e. the held quantity with 0 both for a
missing position and for a held quantity of 0. -/
def calculateMaxQuantity (orderType : OrderSide) (stock : Option StockView)
    (playerState : Option PlayerState) (positions : List Position) : Int :=
  match stock, playerState with
  | none, _ => 0
  | some _, none => 0
  | some stock, some ps =>
    match orderType with
    | .buy =>
      match stock.current_price with
      | some price => ⌊ps.cash / price⌋
      | none => 0
    | .sell =>
      match getPosition positions stock.symbol with
      | some pos => if pos.quantity = 0 then 0 else pos.quantity
      | none => 0

/-- State of one game together with its rounds, as stored in the games and
game_rounds tables. -/
structure GameState where
  status : GameStatus
  current_round_number : Nat
  total_rounds : Nat
  rounds : List Round
deriving DecidableEq, Repr

/-- The rounds list after completing round `e` and, when `activateNext`,
activating round `e + 1`. -/
def completeAndActivate (rounds : List Round) (e : Nat) (activateNext : Bool) :
    List Round :=
  rounds.map (fun r =>
    if r.round_number = e then { r with status := .completed }
    else if activateNext = true ∧ r.round_number = e + 1 then
      { r with status := .active }
    else r)

/-- Modelled from the spec: the conditional claim of a round transition used
by the `advance_to_next_round` Supabase RPC, whose SQL is not part of the
repository.  Spec section 5: the claim succeeds only if the game is live,
the expected round number matches the current round and that round is still
active. -/
def advanceClaim (g : GameState) (expected : Nat) : Bool :=
  g.status == .live && g.current_round_number == expected &&
    ((g.rounds.find? (fun r => r.round_number == expected)).map
      (fun r => r.status)) == some .active

/-- Modelled from the spec: `advance_to_next_round` (invoked by the client
through `gameApi.advanceToNextRound`) for the transition out of round
`expected`.  Spec sections 4.1 and 5: the winner of the claim completes the
round and either activates the next round, incrementing
`current_round_number`, or on the last round marks the game completed; a
loser performs no mutation and reports the already-advanced state.  The
returned number is the resulting `current_round_number`. -/
def advanceRound (g : GameState) (expected : Nat) : GameState × Nat :=
  if advanceClaim g expected then
    if expected = g.total_rounds then
      ({ g with status := .completed,
                rounds := completeAndActivate g.rounds expected false },
       g.current_round_number)
    else
      ({ g with current_round_number := expected + 1,
                rounds := completeAndActivate g.rounds expected true },
       expected + 1)
  else (g, g.current_round_number)

/-- A stock in the GameEditor `stocks` state. -/
structure EditorStock where
  symbol : String
  display_name : String
  initial_price : ℚ
deriving DecidableEq, Repr

/-- The GameEditor `priceMatrix` state: the explicitly entered prices,
keyed by round number. -/
abbrev PriceMatrix := List (Nat × List (String × ℚ))

/-- JavaScript `a || b` for a possibly-missing price: 0 and missing are
both falsy. -/
def jsOrQ (v : Option ℚ) (d : ℚ) : ℚ :=
  match v with
  | none => d
  | some x => if x = 0 then d else x

/-- GameEditor.jsx `getPriceForRound`:
`priceObj?.price || stocks.find(s => s.symbol === symbol)?.initial_price || 0`. -/
def getPriceForRound (m : PriceMatrix) (stocks : List EditorStock)
    (symbol : String) (roundNum : Nat) : ℚ :=
  let roundPrices := (m.lookup roundNum).getD []
  let priceObj := roundPrices.find? (fun p => p.1 == symbol)
  jsOrQ (priceObj.map (fun p => p.2))
    (jsOrQ ((stocks.find? (fun s => s.symbol == symbol)).map
      (fun s => s.initial_price)) 0)

/-- JavaScript `roundDurations[i] || 10`. -/
def jsOrDuration (v : Option Int) : Int :=
  match v with
  | none => 10
  | some d => if d = 0 then 10 else d

/-- The writes of a successful GameEditor save: the stored game round
count, the rounds rows and, per round, the `setRoundPrices` batch. -/
structure SavedGame where
  total_rounds : Nat
  roundsCreated : List (Nat × Int)
  roundPrices : List (Nat × List (String × ℚ))
deriving DecidableEq, Repr

/-- The round numbers 1..n iterated by handleSave. -/
def roundsList (n : Nat) : List Nat := List.range' 1 n

/-- JavaScript `String.prototype.trim`: strip whitespace from both ends. -/
def jsTrim (s : String) : String :=
  String.mk (((s.data.dropWhile Char.isWhitespace).reverse.dropWhile
    Char.isWhitespace).reverse)

/-- GameEditor.jsx `handleSave`: validation (nonempty title, at least one
stock, at least one round) followed by the writes — one rounds row per
round number with its duration (default 10) and, for every round number,
one `setRoundPrices` batch holding one price per stock obtained from
`getPriceForRound`. -/
def handleSave (title : String) (stocks : List EditorStock)
    (totalRounds : Nat) (durations : List (Nat × Int)) (m : PriceMatrix) :
    Except String SavedGame :=
  if jsTrim title = "" then .error "Please enter a game title"
  else if stocks.length = 0 then .error "Please add at least one stock"
  else if totalRounds < 1 then .error "Game must have at least one round"
  else .ok
    { total_rounds := totalRounds,
      roundsCreated := (roundsList totalRounds).map
        (fun i => (i, jsOrDuration (durations.lookup i))),
      roundPrices := (roundsList totalRounds).map
        (fun r => (r, stocks.map
          (fun s => (s.symbol, getPriceForRound m stocks s.symbol r)))) }

/-- All RoundPrice rows written by a save, flattened to
(round_number, symbol, price) triples. -/
def allWrites (sv : SavedGame) : List (Nat × String × ℚ) :=
  sv.roundPrices.flatMap (fun b => b.2.map (fun e => (b.1, e.1, e.2)))

/-- JavaScript `parseInt(value) || 1` in the total-rounds onChange. -/
def jsOrOne (v : Option Int) : Int :=
  match v with
  | none => 1
  | some n => if n = 0 then 1 else n

/-- GameEditor.jsx total-rounds input onChange:
`setTotalRounds(Math.max(1, Math.min(20, parseInt(value) || 1)))`. -/
def totalRoundsOnChange (input : String) : Int :=
  max 1 (min 20 (jsOrOne (jsParseInt input)))

lemma countP_congr_mem {α : Type} (p q : α → Bool) (l : List α)
    (h : ∀ a ∈ l, p a = q a) : l.countP p = l.countP q := by
  induction l with
  | nil => rfl
  | cons a t ih =>
    rw [List.countP_cons, List.countP_cons, h a (List.mem_cons_self a t),
      ih (fun x hx => h x (List.mem_cons_of_mem a hx))]

lemma countP_completeAndActivate (l : List Round) (e : Nat) (b : Bool)
    (r0 : Round) (hmem : r0 ∈ l) (hnum : r0.round_number = e)
    (hact : r0.status = .active)
    (hnodup : (l.map (fun r => r.round_number)).Nodup)
    (hnext : ∀ r ∈ l, r.round_number = e + 1 → r.status = .pending) :
    (completeAndActivate l e b).countP (fun r => r.status == .completed) =
      l.countP (fun r => r.status == .completed) + 1 := by
  induction l with
  | nil => cases hmem
  | cons a t ih =>
    have hnodup' : (t.map (fun r => r.round_number)).Nodup := by
      rw [List.map_cons] at hnodup
      exact hnodup.of_cons
    have hhead : a.round_number ∉ t.map (fun r => r.round_number) := by
      rw [List.map_cons] at hnodup
      exact (List.nodup_cons.mp hnodup).1
    unfold completeAndActivate
    rw [List.map_cons, List.countP_cons, List.countP_cons]
    rcases List.mem_cons.mp hmem with rfl | hmemT
    · -- the active round is the head
      have hupd : (if r0.round_number = e then
          { r0 with status := RoundStatus.completed }
          else if b = true ∧ r0.round_number = e + 1 then
            { r0 with status := RoundStatus.active }
          else r0) = { r0 with status := RoundStatus.completed } := by
        rw [if_pos hnum]
      rw [hupd]
      have htail : (t.map (fun r =>
          if r.round_number = e then { r with status := RoundStatus.completed }
          else if b = true ∧ r.round_number = e + 1 then
            { r with status := RoundStatus.active }
          else r)).countP (fun r => r.status == RoundStatus.completed) =
          t.countP (fun r => r.status == RoundStatus.completed) := by
        rw [List.countP_map]
        refine countP_congr_mem _ _ t (fun r hr => ?_)
        simp only [Function.comp_apply]
        by_cases h1 : r.round_number = e
        · exact absurd (h1 ▸ List.mem_map_of_mem (fun x => x.round_number) hr)
            (hnum ▸ hhead)
        · rw [if_neg h1]
          by_cases h2 : b = true ∧ r.round_number = e + 1
          · rw [if_pos h2]
            have := hnext r (List.mem_cons_of_mem _ hr) h2.2
            simp [this]
          · rw [if_neg h2]
      rw [htail, hact]
      simp
    · -- the active round is in the tail
      have hane : a.round_number ≠ e := by
        intro h
        exact hhead (h ▸ hnum ▸ List.mem_map_of_mem (fun x => x.round_number) hmemT)
      have hheadeq : (if (if a.round_number = e then
          { a with status := RoundStatus.completed }
          else if b = true ∧ a.round_number = e + 1 then
            { a with status := RoundStatus.active }
          else a).status == RoundStatus.completed then 1 else 0) =
          (if a.status == RoundStatus.completed then 1 else 0) := by
        rw [if_neg hane]
        by_cases h2 : b = true ∧ a.round_number = e + 1
        · rw [if_pos h2]
          have := hnext a (List.mem_cons_self a t) h2.2
          simp [this]
        · rw [if_neg h2]
      have := ih hmemT hnodup'
        (fun r hr h => hnext r (List.mem_cons_of_mem _ hr) h)
      unfold completeAndActivate at this
      rw [this, hheadeq]
      omega

lemma countP_flatMap_batches {β : Type} (p : β → Bool) (l : List Nat)
    (f : Nat → List β) (rq : Nat) (h1 : l.count rq = 1)
    (hin : (f rq).countP p = 1)
    (hout : ∀ r ∈ l, r ≠ rq → (f r).countP p = 0) :
    (l.flatMap f).countP p = 1 := by
  induction l with
  | nil => simp at h1
  | cons a t ih =>
    rw [List.flatMap_cons, List.countP_append]
    by_cases ha : a = rq
    · subst ha
      have ht : t.count a = 0 := by
        have := List.count_cons_self a t
        omega
      have htz : (t.flatMap f).countP p = 0 := by
        rw [List.countP_eq_zero]
        intro x hx
        obtain ⟨r, hr, hxr⟩ := List.mem_flatMap.mp hx
        have hrne : r ≠ a := by
          intro h
          subst h
          exact (List.count_eq_zero.mp ht) hr
        have hz := hout r (List.mem_cons_of_mem _ hr) hrne
        rw [List.countP_eq_zero] at hz
        exact hz x hxr
      rw [hin, htz]
    · have h1t : t.count rq = 1 := by
        have hne : rq ≠ a := fun h => ha h.symm
        rw [List.count_cons_of_ne hne] at h1
        exact h1
      have ha0 : (f a).countP p = 0 := hout a (List.mem_cons_self a t) ha
      rw [ha0]
      have := ih h1t (fun r hr hne => hout r (List.mem_cons_of_mem _ hr) hne)
      omega

/-- Claim C1: for a live game with an active current round, the remaining
time is `max 0 (actual_start_time + duration - now)` floored to whole
seconds, hence never negative and zero when the start time is missing or
the duration is not positive; an auto-advance call is scheduled when and
only when the remaining time reaches zero on an admin client with no
pending scheduled call, in which case exactly one call is scheduled with
the fixed 3000 ms grace delay; a pending scheduled call suppresses any
second scheduling and non-admin clients never schedule the call. -/
theorem auto_advance_scheduling :
    (∀ (r : Round) (now : Int), 0 ≤ calculateTimeRemaining r now) ∧
    (∀ (r : Round) (now : Int), r.actual_start_time = none →
      calculateTimeRemaining r now = 0) ∧
    (∀ (r : Round) (now : Int), r.duration_minutes ≤ 0 →
      calculateTimeRemaining r now = 0) ∧
    (∀ (r : Round) (now s : Int), r.actual_start_time = some s →
      0 < r.duration_minutes →
      calculateTimeRemaining r now =
        (max 0 (s + r.duration_minutes * 60 * 1000 - now)) / 1000) ∧
    (∀ (r : Round) (now : Int) (isAdmin pending : Bool),
      (timerTick r now isAdmin pending).2 = [3000] ∨
      (timerTick r now isAdmin pending).2 = []) ∧
    (∀ (r : Round) (now : Int) (isAdmin pending : Bool),
      (timerTick r now isAdmin pending).2 = [3000] ↔
        (calculateTimeRemaining r now = 0 ∧ isAdmin = true ∧ pending = false)) ∧
    (∀ (r : Round) (now : Int) (pending : Bool),
      (timerTick r now false pending).2 = []) ∧
    (∀ (r : Round) (now : Int) (isAdmin : Bool),
      (timerTick r now isAdmin true).2 = []) := by
  have hnonneg : ∀ (r : Round) (now : Int), 0 ≤ calculateTimeRemaining r now := by
    intro r now
    unfold calculateTimeRemaining
    cases h : r.actual_start_time with
    | none => simp
    | some s =>
      simp only
      split
      · exact le_refl 0
      · exact Int.ediv_nonneg (le_max_left 0 _) (by norm_num)
  refine ⟨hnonneg, ?_, ?_, ?_, ?_, ?_, ?_, ?_⟩
  · intro r now h
    unfold calculateTimeRemaining
    rw [h]
  · intro r now h
    unfold calculateTimeRemaining
    cases hs : r.actual_start_time with
    | none => rfl
    | some s =>
      simp only
      have : r.duration_minutes * 60 * 1000 ≤ 0 := by
        have h60 : r.duration_minutes * 60 ≤ 0 := by
          have := mul_le_mul_of_nonneg_right h (by norm_num : (0:Int) ≤ 60)
          simpa using this
        have := mul_le_mul_of_nonneg_right h60 (by norm_num : (0:Int) ≤ 1000)
        simpa using this
      simp [this]
  · intro r now s hs hd
    unfold calculateTimeRemaining
    rw [hs]
    have hpos : 0 < r.duration_minutes * 60 * 1000 := by positivity
    simp only
    rw [if_neg (not_le.mpr hpos)]
  · intro r now isAdmin pending
    unfold timerTick triggerAutoAdvance
    rcases isAdmin with _ | _ <;> rcases pending with _ | _ <;>
      split <;> simp
  · intro r now isAdmin pending
    have h0 : calculateTimeRemaining r now ≤ 0 ↔ calculateTimeRemaining r now = 0 :=
      ⟨fun h => le_antisymm h (hnonneg r now), fun h => le_of_eq h⟩
    unfold timerTick triggerAutoAdvance
    rcases isAdmin with _ | _ <;> rcases pending with _ | _ <;>
      constructor <;> intro h <;> first
        | (split at h <;> simp_all)
        | (rcases h with ⟨h1, h2, h3⟩; simp_all)
  · intro r now pending
    unfold timerTick triggerAutoAdvance
    split
    · simp
    · simp
  · intro r now isAdmin
    unfold timerTick triggerAutoAdvance
    rcases isAdmin with _ | _ <;> (split
                                   · simp
                                   · simp)

/-- Witness for `auto_advance_scheduling` at a concrete overdue round. -/
theorem auto_advance_scheduling_witness :
    calculateTimeRemaining
      { round_number := 1, status := .active, duration_minutes := 1,
        actual_start_time := some 0 } 60000 =
      (max 0 ((0 : Int) + 1 * 60 * 1000 - 60000)) / 1000 ∧
    (timerTick
      { round_number := 1, status := .active, duration_minutes := 1,
        actual_start_time := some 0 } 60000 true false).2 = [3000] := by
  refine ⟨auto_advance_scheduling.2.2.2.1 _ 60000 0 rfl (by decide), ?_⟩
  exact (auto_advance_scheduling.2.2.2.2.2.1 _ 60000 true false).mpr
    ⟨by decide, rfl, rfl⟩

/-- Claim C7: when the timer state is (re)initialised for a live game with
an active round, an overdue round (stored start time plus duration already
past the wall clock) immediately triggers the auto-advance path on the
admin client, with the scheduling state fresh (no in-memory pending
timeout); and the remaining-time decision is derived solely from the stored
`actual_start_time` and `duration_minutes` compared to the wall clock,
never from any other state. -/
theorem overdue_round_detection (r : Round) (now s d : Int)
    (hs : r.actual_start_time = some s) (hd : r.duration_minutes = d)
    (hdpos : 0 < d) (hpast : s + d * 60 * 1000 ≤ now) :
    initTimerEffect r now true = (true, [3000]) ∧
    (∀ r' : Round, r'.actual_start_time = r.actual_start_time →
      r'.duration_minutes = r.duration_minutes →
      calculateTimeRemaining r' now = calculateTimeRemaining r now) := by
  constructor
  · have hzero : calculateTimeRemaining r now = 0 := by
      unfold calculateTimeRemaining
      rw [hs]
      simp only
      rw [hd]
      have hpos : 0 < d * 60 * 1000 := by positivity
      rw [if_neg (not_le.mpr hpos)]
      have : s + d * 60 * 1000 - now ≤ 0 := by omega
      rw [max_eq_left this]
      norm_num
    unfold initTimerEffect timerTick triggerAutoAdvance
    rw [hzero]
    simp
  · intro r' h1 h2
    unfold calculateTimeRemaining
    rw [h1, h2]

/-- Witness for `overdue_round_detection` at a concrete overdue round. -/
theorem overdue_round_detection_witness :
    initTimerEffect
      { round_number := 2, status := .active, duration_minutes := 1,
        actual_start_time := some 1000 } 200000 true = (true, [3000]) :=
  (overdue_round_detection _ 200000 1000 1 rfl rfl (by decide)
    (by decide)).1

/-- Claim C2: whenever the current round is not active, the buy/sell
toggle, the quantity input and the submit action are all disabled and no
`placeOrder` invocation can happen; trading is possible only when the
current round exists and is active; and the Trading tab is offered only for
games whose status is live. -/
theorem trading_closed_gate :
    (∀ cr : Option Round, canTrade cr = false →
      buySellToggleDisabled cr = true ∧ quantityInputDisabled cr = true ∧
      ∀ (submitting : Bool) (q : String),
        submitButtonDisabled cr submitting q = true) ∧
    (∀ (cr : Option Round) (submitting : Bool) (sel : Option StockView)
        (ot : OrderSide) (q : String), canTrade cr = false →
      submitOrder cr submitting sel ot q = none) ∧
    (∀ cr : Option Round, canTrade cr = true →
      ∃ r, cr = some r ∧ r.status = .active) ∧
    (∀ (isAdmin : Bool) (gs : GameStatus),
      tradingTabOffered isAdmin gs = true → gs = .live) := by
  refine ⟨?_, ?_, ?_, ?_⟩
  · intro cr h
    refine ⟨?_, ?_, ?_⟩
    · simp [buySellToggleDisabled, h]
    · simp [quantityInputDisabled, h]
    · intro submitting q
      simp [submitButtonDisabled, h]
  · intro cr submitting sel ot q h
    have hd : submitButtonDisabled cr submitting q = true := by
      simp [submitButtonDisabled, h]
    simp [submitOrder, hd]
  · intro cr h
    unfold canTrade at h
    cases cr with
    | none => exact absurd h (by simp)
    | some r =>
      refine ⟨r, rfl, ?_⟩
      simpa using h
  · intro isAdmin gs h
    unfold tradingTabOffered at h
    rcases isAdmin with _ | _
    · simpa using h
    · simp at h

/-- Witness for `trading_closed_gate` at a completed current round. -/
theorem trading_closed_gate_witness :
    submitOrder
      (some { round_number := 1, status := .completed, duration_minutes := 10,
              actual_start_time := some 0 }) false
      (some { symbol := "X", company_name := "XC", initial_price := 100,
              current_price := some 120 }) .buy "5" = none :=
  trading_closed_gate.2.1 _ false _ .buy "5" (by decide)

/-- Claim C3: for every instrument shown in the trading interface (and
hence for every order prepared there, whose summary price per share is that
instrument's `current_price`), the price used is the RoundPrice of the
game's current round for that symbol — a row whose round_number equals the
current round number, never an earlier or later round.  The hypotheses are
the spec invariants: a current round exists, every RoundPrice is positive,
and every instrument has a RoundPrice row for the current round. -/
theorem current_round_price_used (stocks : List GameStock) (n : Nat)
    (allPrices : List RoundPriceRec) (hn : n ≠ 0)
    (hpos : ∀ pr ∈ allPrices, 0 < pr.price)
    (hcomplete : ∀ s ∈ stocks, ∃ pr ∈ allPrices,
      pr.round_number = n ∧ pr.symbol = s.symbol) :
    ∀ v ∈ loadStocks stocks n allPrices, ∃ pr ∈ allPrices,
      pr.round_number = n ∧ pr.symbol = v.symbol ∧
      v.current_price = some pr.price ∧ orderSummaryPrice v = some pr.price := by
  intro v hv
  unfold loadStocks at hv
  rw [if_pos hn] at hv
  obtain ⟨s, hs, rfl⟩ := List.mem_map.mp hv
  obtain ⟨pr, hprMem, hprRound, hprSym⟩ := hcomplete s hs
  have hprFilter : pr ∈ getRoundPrices allPrices n := by
    unfold getRoundPrices
    exact List.mem_filter.mpr ⟨hprMem, by simp [hprRound]⟩
  have hfind : ((getRoundPrices allPrices n).find?
      (fun p => p.symbol == s.symbol)).isSome := by
    rw [List.find?_isSome]
    exact ⟨pr, hprFilter, by simp [hprSym]⟩
  obtain ⟨pd, hpd⟩ := Option.isSome_iff_exists.mp hfind
  have hpdMem : pd ∈ getRoundPrices allPrices n := List.mem_of_find?_eq_some hpd
  have hpdMemAll : pd ∈ allPrices := (List.mem_filter.mp hpdMem).1
  have hpdRound : pd.round_number = n := by
    have := (List.mem_filter.mp hpdMem).2
    simpa using this
  have hpdSym : pd.symbol = s.symbol := by
    have := List.find?_some hpd
    simpa using this
  have hpdPos : 0 < pd.price := hpos pd hpdMemAll
  refine ⟨pd, hpdMemAll, hpdRound, by simpa using hpdSym, ?_, ?_⟩
  · simp only [hpd]
    rw [if_neg (ne_of_gt hpdPos)]
  · unfold orderSummaryPrice
    simp only [hpd]
    rw [if_neg (ne_of_gt hpdPos)]

/-- Witness for `current_round_price_used`: one stock, round 2 current,
rows for rounds 1, 2 and 3 present; the round-2 price is used. -/
theorem current_round_price_used_witness :
    ∃ pr ∈ [({ round_number := 1, symbol := "X", price := 100 } : RoundPriceRec),
            { round_number := 2, symbol := "X", price := 120 },
            { round_number := 3, symbol := "X", price := 90 }],
      pr.round_number = 2 ∧
      pr.symbol = (({ symbol := "X", company_name := "XC", initial_price := 100,
                      current_price := some 120 } : StockView)).symbol ∧
      (({ symbol := "X", company_name := "XC", initial_price := 100,
          current_price := some 120 } : StockView)).current_price = some pr.price ∧
      orderSummaryPrice ({ symbol := "X", company_name := "XC",
                           initial_price := 100,
                           current_price := some 120 } : StockView) =
        some pr.price := by
  have h := current_round_price_used
    [{ symbol := "X", company_name := "XC", initial_price := 100 }] 2
    [{ round_number := 1, symbol := "X", price := 100 },
     { round_number := 2, symbol := "X", price := 120 },
     { round_number := 3, symbol := "X", price := 90 }]
    (by decide) (by decide)
    (by
      intro s hs
      simp only [List.mem_singleton] at hs
      subst hs
      exact ⟨{ round_number := 2, symbol := "X", price := 120 },
        by simp, rfl, rfl⟩)
  exact h { symbol := "X", company_name := "XC", initial_price := 100,
            current_price := some 120 } (by decide)

/-- Claim C5: for cash c ≥ 0 and price p > 0, the maximum buy quantity the
interface permits is floor(c / p), the cash required at that maximum never
exceeds c, and no quantity up to that maximum can drive cash negative. -/
theorem max_buy_quantity (sym name : String) (ip c p ev tv : ℚ)
    (positions : List Position) (_hc : 0 ≤ c) (hp : 0 < p) :
    calculateMaxQuantity .buy
      (some { symbol := sym, company_name := name, initial_price := ip,
              current_price := some p })
      (some { cash := c, equity_value := ev, total_value := tv })
      positions = ⌊c / p⌋ ∧
    p * (⌊c / p⌋ : ℚ) ≤ c ∧
    (∀ q : ℤ, 0 ≤ q → q ≤ ⌊c / p⌋ → 0 ≤ c - p * (q : ℚ)) := by
  have key : ∀ q : ℤ, q ≤ ⌊c / p⌋ → p * (q : ℚ) ≤ c := by
    intro q hq
    have h1 : (q : ℚ) ≤ c / p := by
      calc (q : ℚ) ≤ (⌊c / p⌋ : ℚ) := by exact_mod_cast hq
        _ ≤ c / p := Int.floor_le _
    have h2 : (q : ℚ) * p ≤ (c / p) * p :=
      mul_le_mul_of_nonneg_right h1 (le_of_lt hp)
    rw [div_mul_cancel₀ c (ne_of_gt hp)] at h2
    calc p * (q : ℚ) = (q : ℚ) * p := mul_comm _ _
      _ ≤ c := h2
  refine ⟨rfl, ?_, ?_⟩
  · exact key ⌊c / p⌋ (le_refl _)
  · intro q hq0 hq
    have := key q hq
    linarith

/-- Witness for `max_buy_quantity`: cash 10, price 3, maximum 3 shares. -/
theorem max_buy_quantity_witness :
    calculateMaxQuantity .buy
      (some { symbol := "X", company_name := "XC", initial_price := 100,
              current_price := some 3 })
      (some { cash := 10, equity_value := 0, total_value := 10 }) [] =
      ⌊(10 : ℚ) / 3⌋ ∧
    (3 : ℚ) * ((⌊(10 : ℚ) / 3⌋ : ℤ) : ℚ) ≤ 10 := by
  have h := max_buy_quantity "X" "XC" 100 10 3 0 10 [] (by norm_num) (by norm_num)
  exact ⟨h.1, h.2.1⟩

/-- Claim C6: with short selling not allowed, a sell whose quantity exceeds
the held long quantity is rejected with InsufficientPosition and cash and
positions are unchanged; the interface computes the maximum sell quantity
as exactly the held position quantity, and zero when no position exists. -/
theorem sell_requires_position :
    (∀ (cash : ℚ) (positions : List Position) (symbol : String) (price : ℚ)
        (quantity : Int),
      ((getPosition positions symbol).map (fun p => p.quantity)).getD 0 <
        quantity →
      placeSellOrder false cash positions symbol price quantity =
        { cash := cash, positions := positions,
          outcome := .rejected "InsufficientPosition" }) ∧
    (∀ (stock : StockView) (ps : PlayerState) (positions : List Position),
      calculateMaxQuantity .sell (some stock) (some ps) positions =
        ((getPosition positions stock.symbol).map (fun p => p.quantity)).getD 0) ∧
    (∀ (stock : StockView) (ps : PlayerState) (positions : List Position),
      getPosition positions stock.symbol = none →
      calculateMaxQuantity .sell (some stock) (some ps) positions = 0) := by
  refine ⟨?_, ?_, ?_⟩
  · intro cash positions symbol price quantity h
    unfold placeSellOrder
    rw [if_pos ⟨rfl, h⟩]
  · intro stock ps positions
    cases h : getPosition positions stock.symbol with
    | none => simp [calculateMaxQuantity, h]
    | some pos =>
      by_cases hz : pos.quantity = 0
      · simp [calculateMaxQuantity, h, hz]
      · simp [calculateMaxQuantity, h, hz]
  · intro stock ps positions h
    simp [calculateMaxQuantity, h]

/-- Witness for `sell_requires_position`: selling 10 of a symbol with no
position is rejected and mutates nothing (spec scenario B). -/
theorem sell_requires_position_witness :
    placeSellOrder false 10000 [] "X" 100 10 =
      { cash := 10000, positions := [],
        outcome := .rejected "InsufficientPosition" } :=
  sell_requires_position.1 10000 [] "X" 100 10 (by decide)

/-- Claim C10: under an active round with no submission in flight and a
quantity string that is empty or parseable (what a number input yields),
the order submission is blocked exactly when no stock is selected or the
parsed value is not greater than zero; every submitted order carries
`parseInt` of the typed text as its quantity, so a fractional entry such as
"3.9" places an order for 3 shares. -/
theorem order_quantity_parse (cr : Option Round) (sel : Option StockView)
    (ot : OrderSide) (q : String) (hct : canTrade cr = true)
    (hq : q = "" ∨ (jsParseInt q).isSome) :
    (submitOrder cr false sel ot q = none ↔
      sel = none ∨ ¬∃ n, jsParseInt q = some n ∧ 0 < n) ∧
    (∀ (sym : String) (side : OrderSide) (v : Option Int),
      submitOrder cr false sel ot q = some (sym, side, v) →
      v = jsParseInt q ∧ side = ot ∧ ∃ st, sel = some st ∧ sym = st.symbol) ∧
    jsParseInt "3.9" = some 3 := by
  have h39 : jsParseInt "3.9" = some 3 := by decide
  rcases hq with hq | hq
  · subst hq
    have hdis : submitButtonDisabled cr false "" = true := by
      simp [submitButtonDisabled]
    have hr : submitOrder cr false sel ot "" = none := by
      simp [submitOrder, hdis]
    refine ⟨?_, ?_, h39⟩
    · rw [hr]
      constructor
      · intro _
        right
        rintro ⟨n, hn, _⟩
        exact Option.noConfusion hn
      · intro _
        rfl
    · intro sym side v h
      rw [hr] at h
      exact Option.noConfusion h
  · obtain ⟨n, hn⟩ := Option.isSome_iff_exists.mp hq
    have hne : q ≠ "" := by
      intro h
      subst h
      exact Option.noConfusion hn
    have hbe : (q == "") = false := by
      simpa using hne
    rcases le_or_lt n 0 with hle | hpos
    · have hdis : submitButtonDisabled cr false q = true := by
        simp [submitButtonDisabled, jsLeZero, hn, hle]
      have hr : submitOrder cr false sel ot q = none := by
        simp [submitOrder, hdis]
      refine ⟨?_, ?_, h39⟩
      · rw [hr]
        constructor
        · intro _
          right
          rintro ⟨m, hm, hmpos⟩
          rw [hn] at hm
          injection hm with hm
          omega
        · intro _
          rfl
      · intro sym side v h
        rw [hr] at h
        exact Option.noConfusion h
    · have hdis : submitButtonDisabled cr false q = false := by
        simp [submitButtonDisabled, jsLeZero, hn, hct, hbe]
        omega
      cases sel with
      | none =>
        have hr : submitOrder cr false none ot q = none := by
          simp [submitOrder, hdis, handlePlaceOrder]
        refine ⟨?_, ?_, h39⟩
        · rw [hr]
          constructor
          · intro _
            left
            rfl
          · intro _
            rfl
        · intro sym side v h
          rw [hr] at h
          exact Option.noConfusion h
      | some st =>
        have hr : submitOrder cr false (some st) ot q =
            some (st.symbol, ot, jsParseInt q) := by
          have hlz : jsLeZero (jsParseInt q) = false := by
            simp [jsLeZero, hn]
            omega
          simp [submitOrder, hdis, handlePlaceOrder, hbe, hlz]
        refine ⟨?_, ?_, h39⟩
        · rw [hr]
          constructor
          · intro h
            exact Option.noConfusion h
          · rintro (h | h)
            · exact Option.noConfusion h
            · exact absurd ⟨n, hn, hpos⟩ h
        · rw [hr]
          rintro sym side v h
          simp only [Option.some.injEq, Prod.mk.injEq] at h
          obtain ⟨h1, h2, h3⟩ := h
          exact ⟨h3.symm, h2.symm, st, rfl, h1.symm⟩

/-- Witness for `order_quantity_parse`: typing "3.9" with a selected stock
under an active round submits an order for 3 shares. -/
theorem order_quantity_parse_witness :
    jsParseInt "3.9" = some 3 ∧
    submitOrder
      (some { round_number := 1, status := .active, duration_minutes := 10,
              actual_start_time := some 0 }) false
      (some { symbol := "X", company_name := "XC", initial_price := 100,
              current_price := some 120 }) .buy "3.9" ≠ none := by
  have h := order_quantity_parse
    (some { round_number := 1, status := .active, duration_minutes := 10,
            actual_start_time := some 0 })
    (some { symbol := "X", company_name := "XC", initial_price := 100,
            current_price := some 120 }) .buy "3.9" (by decide)
    (Or.inr (by decide))
  refine ⟨h.2.2, fun hnone => ?_⟩
  rcases h.1.mp hnone with h1 | h2
  · exact Option.noConfusion h1
  · exact h2 ⟨3, by decide, by decide⟩

/-- Claim C4: calling AdvanceRound twice in immediate succession for the
same round transition yields the same resulting current_round_number both
times, transitions exactly one Round to completed, and the second call is a
no-op that reports the already-advanced state rather than
double-advancing. -/
theorem advance_round_idempotent (g : GameState) (e : Nat) (r0 : Round)
    (hlive : g.status = .live) (hcur : g.current_round_number = e)
    (hmem : r0 ∈ g.rounds) (hnum : r0.round_number = e)
    (hact : r0.status = .active)
    (hnodup : (g.rounds.map (fun r => r.round_number)).Nodup)
    (hnext : ∀ r ∈ g.rounds, r.round_number = e + 1 → r.status = .pending) :
    (advanceRound (advanceRound g e).1 e).2 = (advanceRound g e).2 ∧
    advanceRound (advanceRound g e).1 e =
      ((advanceRound g e).1, (advanceRound g e).2) ∧
    (advanceRound g e).1.rounds.countP (fun r => r.status == .completed) =
      g.rounds.countP (fun r => r.status == .completed) + 1 := by
  have hsome : (g.rounds.find? (fun r => r.round_number == e)).isSome :=
    List.find?_isSome.mpr ⟨r0, hmem, by simp [hnum]⟩
  obtain ⟨rf, hrf⟩ := Option.isSome_iff_exists.mp hsome
  have hrfMem : rf ∈ g.rounds := List.mem_of_find?_eq_some hrf
  have hrfNum : rf.round_number = e := by simpa using List.find?_some hrf
  have hrfEq : rf = r0 :=
    List.inj_on_of_nodup_map hnodup hrfMem hmem (by rw [hrfNum, hnum])
  have hclaim : advanceClaim g e = true := by
    simp [advanceClaim, hlive, hcur, hrf, hrfEq, hact]
  have hcount := fun b =>
    countP_completeAndActivate g.rounds e b r0 hmem hnum hact hnodup hnext
  by_cases htot : e = g.total_rounds
  · have h1 : advanceRound g e =
        ({ g with status := .completed,
                  rounds := completeAndActivate g.rounds e false },
         g.current_round_number) := by
      unfold advanceRound
      rw [if_pos hclaim, if_pos htot]
    have h2 : advanceClaim
        ({ g with status := .completed,
                  rounds := completeAndActivate g.rounds e false } : GameState)
        e = false := rfl
    have h3 : advanceRound
        ({ g with status := .completed,
                  rounds := completeAndActivate g.rounds e false } : GameState)
        e =
        ({ g with status := .completed,
                  rounds := completeAndActivate g.rounds e false },
         g.current_round_number) := by
      unfold advanceRound
      rw [if_neg (by rw [h2]; exact Bool.false_ne_true)]
    rw [h1]
    exact ⟨by rw [h3], by rw [h3], hcount false⟩
  · have h1 : advanceRound g e =
        ({ g with current_round_number := e + 1,
                  rounds := completeAndActivate g.rounds e true },
         e + 1) := by
      unfold advanceRound
      rw [if_pos hclaim, if_neg htot]
    have hne : ((e + 1 : Nat) == e) = false := by
      rw [beq_eq_false_iff_ne]
      omega
    have h2 : advanceClaim
        ({ g with current_round_number := e + 1,
                  rounds := completeAndActivate g.rounds e true } : GameState)
        e = false := by
      simp [advanceClaim, hne]
    have h3 : advanceRound
        ({ g with current_round_number := e + 1,
                  rounds := completeAndActivate g.rounds e true } : GameState)
        e =
        ({ g with current_round_number := e + 1,
                  rounds := completeAndActivate g.rounds e true }, e + 1) := by
      unfold advanceRound
      rw [if_neg (by rw [h2]; exact Bool.false_ne_true)]
    rw [h1]
    exact ⟨by rw [h3], by rw [h3], hcount true⟩

/-- Witness for `advance_round_idempotent`: a live two-round game at round
1; the double call advances once, completes exactly one round and the
second call is a no-op. -/
theorem advance_round_idempotent_witness :
    (advanceRound (advanceRound
      { status := .live, current_round_number := 1, total_rounds := 2,
        rounds := [{ round_number := 1, status := .active,
                     duration_minutes := 10, actual_start_time := some 0 },
                   { round_number := 2, status := .pending,
                     duration_minutes := 10, actual_start_time := none }] }
      1).1 1).2 = (advanceRound
      { status := .live, current_round_number := 1, total_rounds := 2,
        rounds := [{ round_number := 1, status := .active,
                     duration_minutes := 10, actual_start_time := some 0 },
                   { round_number := 2, status := .pending,
                     duration_minutes := 10, actual_start_time := none }] }
      1).2 ∧
    (advanceRound
      { status := .live, current_round_number := 1, total_rounds := 2,
        rounds := [{ round_number := 1, status := .active,
                     duration_minutes := 10, actual_start_time := some 0 },
                   { round_number := 2, status := .pending,
                     duration_minutes := 10, actual_start_time := none }] }
      1).1.rounds.countP (fun r => r.status == .completed) =
      ([{ round_number := 1, status := RoundStatus.active,
          duration_minutes := 10, actual_start_time := some 0 },
        { round_number := 2, status := RoundStatus.pending,
          duration_minutes := 10, actual_start_time := none }] :
        List Round).countP (fun r => r.status == .completed) + 1 := by
  have h := advance_round_idempotent
    { status := .live, current_round_number := 1, total_rounds := 2,
      rounds := [{ round_number := 1, status := .active,
                   duration_minutes := 10, actual_start_time := some 0 },
                 { round_number := 2, status := .pending,
                   duration_minutes := 10, actual_start_time := none }] }
    1
    { round_number := 1, status := .active, duration_minutes := 10,
      actual_start_time := some 0 }
    rfl rfl (by decide) rfl rfl (by decide) (by decide)
  exact ⟨h.1, h.2.2⟩

/-- Claim C8: a successful editor save requires at least one instrument and
at least one round, and writes exactly one RoundPrice for every pair of a
round number in 1..total_rounds and an instrument symbol; every written
price comes from `getPriceForRound`, which defaults to the instrument
initial price for any pair without an explicitly entered price — so every
instrument has exactly one price for every round before the game may go
live. -/
theorem save_price_matrix_complete (title : String)
    (stocks : List EditorStock) (totalRounds : Nat)
    (durations : List (Nat × Int)) (m : PriceMatrix) (sv : SavedGame)
    (hok : handleSave title stocks totalRounds durations m = .ok sv)
    (hnodup : (stocks.map (fun s => s.symbol)).Nodup) :
    stocks ≠ [] ∧ 1 ≤ totalRounds ∧
    sv.roundPrices.map (fun b => b.1) = roundsList totalRounds ∧
    (∀ b ∈ sv.roundPrices,
      b.2.map (fun pe => pe.1) = stocks.map (fun s => s.symbol)) ∧
    (∀ rq ∈ roundsList totalRounds, ∀ st ∈ stocks,
      (allWrites sv).countP
        (fun w => w.1 == rq && w.2.1 == st.symbol) = 1) ∧
    (∀ b ∈ sv.roundPrices, ∀ pe ∈ b.2, ∃ st ∈ stocks,
      pe.1 = st.symbol ∧ pe.2 = getPriceForRound m stocks st.symbol b.1) ∧
    (∀ rq : Nat, ∀ st ∈ stocks, st.initial_price ≠ 0 →
      ((m.lookup rq).getD []).find? (fun p => p.1 == st.symbol) = none →
      getPriceForRound m stocks st.symbol rq = st.initial_price) := by
  unfold handleSave at hok
  by_cases h1 : jsTrim title = ""
  · rw [if_pos h1] at hok
    exact absurd hok (by simp)
  rw [if_neg h1] at hok
  by_cases h2 : stocks.length = 0
  · rw [if_pos h2] at hok
    exact absurd hok (by simp)
  rw [if_neg h2] at hok
  by_cases h3 : totalRounds < 1
  · rw [if_pos h3] at hok
    exact absurd hok (by simp)
  rw [if_neg h3] at hok
  have hsv : sv =
      { total_rounds := totalRounds,
        roundsCreated := (roundsList totalRounds).map
          (fun i => (i, jsOrDuration (durations.lookup i))),
        roundPrices := (roundsList totalRounds).map
          (fun r => (r, stocks.map (fun s =>
            (s.symbol, getPriceForRound m stocks s.symbol r)))) } := by
    simpa using hok.symm
  subst hsv
  refine ⟨?_, by omega, ?_, ?_, ?_, ?_, ?_⟩
  · intro h
    exact h2 (by rw [h]; rfl)
  · rw [List.map_map]
    exact List.map_id _
  · intro b hb
    obtain ⟨r, _, rfl⟩ := List.mem_map.mp hb
    rw [List.map_map]
    rfl
  · intro rq hrq st hst
    have hAW : allWrites
        { total_rounds := totalRounds,
          roundsCreated := (roundsList totalRounds).map
            (fun i => (i, jsOrDuration (durations.lookup i))),
          roundPrices := (roundsList totalRounds).map
            (fun r => (r, stocks.map (fun s =>
              (s.symbol, getPriceForRound m stocks s.symbol r)))) } =
        (roundsList totalRounds).flatMap (fun r => stocks.map (fun s =>
          (r, s.symbol, getPriceForRound m stocks s.symbol r))) := by
      unfold allWrites
      rw [List.flatMap_map]
      congr 1
      funext r
      rw [List.map_map]
      rfl
    rw [hAW]
    refine countP_flatMap_batches _ (roundsList totalRounds) _ rq ?_ ?_ ?_
    · exact List.count_eq_one_of_mem (List.nodup_range' 1 totalRounds) hrq
    · rw [List.countP_map]
      have hcg : stocks.countP ((fun w => w.1 == rq && w.2.1 == st.symbol) ∘
          (fun s => (rq, s.symbol, getPriceForRound m stocks s.symbol rq))) =
          stocks.countP (fun s => s.symbol == st.symbol) :=
        countP_congr_mem _ _ stocks (fun s _ => by simp)
      rw [hcg]
      have hcm : stocks.countP (fun s => s.symbol == st.symbol) =
          (stocks.map (fun s => s.symbol)).count st.symbol := by
        rw [List.count, List.countP_map]
        rfl
      rw [hcm]
      exact List.count_eq_one_of_mem hnodup
        (List.mem_map_of_mem (fun s => s.symbol) hst)
    · intro r _ hne
      rw [List.countP_eq_zero]
      intro x hx
      obtain ⟨s, _, rfl⟩ := List.mem_map.mp hx
      simp [hne]
  · intro b hb pe hpe
    obtain ⟨r, _, rfl⟩ := List.mem_map.mp hb
    obtain ⟨s, hs, rfl⟩ := List.mem_map.mp hpe
    exact ⟨s, hs, rfl, rfl⟩
  · intro rq st hst hip hfind
    have hsome : ((stocks.find? (fun s => s.symbol == st.symbol))).isSome :=
      List.find?_isSome.mpr ⟨st, hst, by simp⟩
    obtain ⟨sf, hsf⟩ := Option.isSome_iff_exists.mp hsome
    have hsfMem : sf ∈ stocks := List.mem_of_find?_eq_some hsf
    have hsfSym : sf.symbol = st.symbol := by simpa using List.find?_some hsf
    have hsfEq : sf = st :=
      List.inj_on_of_nodup_map hnodup hsfMem hst hsfSym
    simp [getPriceForRound, hfind, hsf, hsfEq, jsOrQ, hip]

/-- Witness for `save_price_matrix_complete`: two stocks, two rounds, one
explicitly entered price; the save succeeds and writes exactly one price
per (round, symbol) pair. -/
theorem save_price_matrix_complete_witness :
    (allWrites
      { total_rounds := 2,
        roundsCreated := [(1, 10), (2, 10)],
        roundPrices := [(1, [("A", 55), ("B", 30)]),
                        (2, [("A", 50), ("B", 30)])] }).countP
      (fun w => w.1 == 2 && w.2.1 == "B") = 1 := by
  have hok : handleSave "G"
      [{ symbol := "A", display_name := "Alpha", initial_price := 50 },
       { symbol := "B", display_name := "Beta", initial_price := 30 }]
      2 [] [(1, [("A", 55)])] = .ok
      { total_rounds := 2,
        roundsCreated := [(1, 10), (2, 10)],
        roundPrices := [(1, [("A", 55), ("B", 30)]),
                        (2, [("A", 50), ("B", 30)])] } := by
    unfold handleSave
    rw [if_neg (by decide), if_neg (by decide), if_neg (by decide)]
    rfl
  have h := save_price_matrix_complete "G"
    [{ symbol := "A", display_name := "Alpha", initial_price := 50 },
     { symbol := "B", display_name := "Beta", initial_price := 30 }]
    2 [] [(1, [("A", 55)])]
    { total_rounds := 2,
      roundsCreated := [(1, 10), (2, 10)],
      roundPrices := [(1, [("A", 55), ("B", 30)]),
                      (2, [("A", 50), ("B", 30)])] }
    hok (by decide)
  exact h.2.2.2.2.1 2 (by decide)
    { symbol := "B", display_name := "Beta", initial_price := 30 } (by decide)

/-- Claim C9: the total-rounds field stores a value clamped to 1..20:
input above 20 becomes 20, input below 1 or unparsable input becomes 1,
and in-range input is stored unchanged. -/
theorem total_rounds_clamped (input : String) :
    1 ≤ totalRoundsOnChange input ∧ totalRoundsOnChange input ≤ 20 ∧
    (∀ n : Int, jsParseInt input = some n → 20 < n →
      totalRoundsOnChange input = 20) ∧
    (jsParseInt input = none → totalRoundsOnChange input = 1) ∧
    (∀ n : Int, jsParseInt input = some n → n < 1 →
      totalRoundsOnChange input = 1) ∧
    (∀ n : Int, jsParseInt input = some n → 1 ≤ n → n ≤ 20 →
      totalRoundsOnChange input = n) := by
  have hle : ∀ x : Int, 1 ≤ max 1 (min 20 x) := fun x => le_max_left 1 _
  have hge : ∀ x : Int, max 1 (min 20 x) ≤ 20 :=
    fun x => max_le (by norm_num) (min_le_left 20 x)
  cases h : jsParseInt input with
  | none =>
    simp only [totalRoundsOnChange, h, jsOrOne]
    refine ⟨hle 1, hge 1, ?_, fun _ => by norm_num, ?_, ?_⟩ <;>
      · intro n hn
        exact absurd hn (by simp)
  | some n =>
    simp only [totalRoundsOnChange, h, jsOrOne]
    by_cases hz : n = 0
    · subst hz
      rw [if_pos rfl]
      refine ⟨hle 1, hge 1, ?_, ?_, ?_, ?_⟩
      · intro v hv hlt
        injection hv with hv
        omega
      · intro hv
        exact Option.noConfusion hv
      · intro v hv _
        norm_num
      · intro v hv h1 _
        injection hv with hv
        omega
    · rw [if_neg hz]
      refine ⟨hle n, hge n, ?_, ?_, ?_, ?_⟩
      · intro v hv hlt
        injection hv with hv
        subst hv
        rw [min_eq_left (le_of_lt hlt)]
        norm_num
      · intro hv
        exact Option.noConfusion hv
      · intro v hv hlt
        injection hv with hv
        subst hv
        have hb20 : n ≤ 20 := by omega
        have hb1 : n ≤ 1 := by omega
        rw [min_eq_right hb20, max_eq_left hb1]
      · intro v hv h1 h20
        injection hv with hv
        subst hv
        rw [min_eq_right h20, max_eq_right h1]

/-- Witness for `total_rounds_clamped`: inputs "25", "abc" and "7" store
20, 1 and 7. -/
theorem total_rounds_clamped_witness :
    totalRoundsOnChange "25" = 20 ∧ totalRoundsOnChange "abc" = 1 ∧
    totalRoundsOnChange "7" = 7 :=
  ⟨(total_rounds_clamped "25").2.2.1 25 (by decide) (by decide),
   (total_rounds_clamped "abc").2.2.2.1 (by decide),
   (total_rounds_clamped "7").2.2.2.2.2 7 (by decide) (by decide) (by decide)⟩

end Invest
